import Mathlib

set_option autoImplicit false

/-!
Verification of the real-time event fan-out subsystem of the efficio backend:
the in-memory per-user SSE connection registry (`src/utils/sseManager.js`),
the activity emitter (`src/utils/activityEmitter.js`), the task-event
emission sites in the task controller, and the `/stream` channel lifecycle
handler.  JavaScript `Map`/`Set` state is embedded as association lists with
insertion-order semantics; JS string-or-null values are `Option String` with
an explicit truthiness predicate.
-/

namespace Efficio

/-! ## JS value helpers -/

/-- JS truthiness for a string-or-null value: `null`/`undefined` and the
empty string are falsy. -/
def truthy : Option String → Bool
  | none => false
  | some s => !(s == "")

/-- JS `a || b`: first operand when truthy, else second. -/
def jsOr (a b : Option String) : Option String :=
  if truthy a then a else b

/-- JS `a || null`: the value when truthy, else `null`. -/
def jsNull (a : Option String) : Option String :=
  if truthy a then a else none

/-- JS `String.prototype.trim`, as a structural function on the character
list so it evaluates inside the kernel. -/
def jsTrimList (cs : List Char) : List Char :=
  ((cs.dropWhile Char.isWhitespace).reverse.dropWhile Char.isWhitespace).reverse

/-- JS `s.toString().trim()`. -/
def jsTrim (s : String) : String :=
  String.mk (jsTrimList s.data)

/-- Trim of an optional id with `getD` for the (unreachable when truthy)
`none` case; models `x.toString().trim()` on a truthy JS value. -/
def trimId (a : Option String) : String :=
  jsTrim (a.getD "")

/-! ## Connection registry (`src/utils/sseManager.js`)

`clientsMap` is a JS `Map` from user id to a `Set` of response objects.
We embed it as an insertion-ordered association list from user id to an
insertion-ordered duplicate-free list of channel identifiers. -/

abbrev Channel := Nat

abbrev Registry := List (String × List Channel)

/-- First-match lookup, as JS `Map.get`. -/
def lookupR : Registry → String → Option (List Channel)
  | [], _ => none
  | (k, l) :: rest, u => if k = u then some l else lookupR rest u

/-- Replace the value of an existing key in place, as JS `Map.set` on a
present key (insertion order is preserved). -/
def updateR : Registry → String → List Channel → Registry
  | [], _, _ => []
  | (k, v) :: rest, u, l => if k = u then (k, l) :: rest else (k, v) :: updateR rest u l

/-- Remove a key, as JS `Map.delete`. -/
def eraseR : Registry → String → Registry
  | [], _ => []
  | (k, v) :: rest, u => if k = u then rest else (k, v) :: eraseR rest u

/-- JS `Set.add`: append the element unless already present. -/
def setAdd {α : Type} [DecidableEq α] (l : List α) (x : α) : List α :=
  if x ∈ l then l else l ++ [x]

/-- `addClient(userId, res)`: no-op on a falsy user id; otherwise create the
set if absent and add the channel. -/
def addClient (u : String) (c : Channel) (st : Registry) : Registry :=
  if u = "" then st
  else
    match lookupR st u with
    | some l => updateR st u (setAdd l c)
    | none => st ++ [(u, setAdd [] c)]

/-- `removeClient(userId, res)`: no-op on a falsy user id or an absent set;
otherwise delete the channel and drop the key when the set becomes empty. -/
def removeClient (u : String) (c : Channel) (st : Registry) : Registry :=
  if u = "" then st
  else
    match lookupR st u with
    | none => st
    | some l =>
        if l.erase c = [] then eraseR st u else updateR st u (l.erase c)

/-- Result of `sendEventToUser`: the returned `delivered` boolean, the
registry after self-healing removal of broken channels, and the channels
that received the frame. -/
structure SendResult where
  delivered : Bool
  state : Registry
  written : List Channel
deriving DecidableEq, Repr

/-- `sendEventToUser(userId, eventName, data)`: false on a falsy id or an
absent/empty set; otherwise write to every channel of a snapshot of the
set, deleting each channel whose write throws, dropping the key when the
set ends empty, and returning whether at least one write succeeded.
`wk c` tells whether the write to channel `c` succeeds. -/
def sendEventToUser (u : String) (wk : Channel → Bool) (st : Registry) : SendResult :=
  if u = "" then ⟨false, st, []⟩
  else
    match lookupR st u with
    | none => ⟨false, st, []⟩
    | some l =>
        if l = [] then ⟨false, st, []⟩
        else
          let kept := l.filter wk
          let st' := if kept = [] then eraseR st u else updateR st u kept
          ⟨l.any wk, st', kept⟩

/-- One user's channels during `broadcast`: every write failure is caught
and ignored, so every channel is kept; returns (kept channels, channels
written successfully). -/
def broadcastChannels (wk : Channel → Bool) : List Channel → List Channel × List Channel
  | [] => ([], [])
  | c :: cs =>
      let r := broadcastChannels wk cs
      if wk c then (c :: r.1, c :: r.2) else (c :: r.1, r.2)

/-- `broadcast(eventName, data)`: iterate over every entry of the map and
every channel of each set; per-channel write errors are ignored.  Returns
the registry as the iteration leaves it and the (user, channel) pairs
written successfully. -/
def broadcast (wk : Channel → Bool) : Registry → Registry × List (String × Channel)
  | [] => ([], [])
  | (u, l) :: rest =>
      let here := broadcastChannels wk l
      let there := broadcast wk rest
      ((u, here.1) :: there.1, here.2.map (fun c => (u, c)) ++ there.2)

/-- `getConnectedUsers()`. -/
def getConnectedUsers (st : Registry) : List String :=
  st.map Prod.fst

/-- Does the registry hold channel `c` for user `u`? -/
def hasChannel (st : Registry) (u : String) (c : Channel) : Bool :=
  match lookupR st u with
  | none => false
  | some l => c ∈ l

/-- Well-formedness of the embedded `Map`: keys are distinct, no key is the
empty (falsy) string, and every channel set is duplicate-free and
non-empty. -/
def WF (st : Registry) : Prop :=
  (st.map Prod.fst).Nodup ∧ ∀ p ∈ st, p.1 ≠ "" ∧ p.2 ≠ [] ∧ p.2.Nodup

instance : DecidablePred WF := fun st => by
  unfold WF; infer_instance

/-! ## Activity emitter (`src/utils/activityEmitter.js`)

The emitter resolves recipients from the activity's group, excludes the
actor, looks up the actor's stored profile, builds a privacy-filtered base
payload and a per-recipient payload (name revealed to the group owner
only), then publishes an `activity` event to each recipient.  The store
lookups are passed in as `Except`-valued oracles so the `try`/`catch`
structure of the source is explicit. -/

/-- A group collaborator sub-document (`userId`, `status`). -/
structure Collaborator where
  userId : Option String
  status : String
deriving DecidableEq, Repr

/-- The fields of a `Group` document the emitter reads. -/
structure GroupRec where
  owner : Option String
  collaborators : List Collaborator
deriving DecidableEq, Repr

/-- The fields of the actor's `User` document the emitter selects
(`name email customPicture`). -/
structure ActorRec where
  name : Option String
  email : Option String
  customPicture : Option String
deriving DecidableEq, Repr

/-- The fields of an activity document the emitter reads. -/
structure ActivityRec where
  userId : Option String
  groupTag : Option String
  userName : Option String
  userEmail : Option String
deriving DecidableEq, Repr

/-- Split a character list on runs of whitespace, JS `split(/\s+/)`
before the `filter(Boolean)` step (empty pieces are produced and filtered
by the caller). -/
def splitWsAux : List Char → List Char → List (List Char)
  | [], acc => [acc.reverse]
  | c :: cs, acc =>
      if c.isWhitespace then acc.reverse :: splitWsAux cs []
      else splitWsAux cs (c :: acc)

/-- `computeInitials(nameOrEmail)` from the emitter: trim, take the email
local part, split on whitespace, and uppercase the first letters of the
first/last token (first two letters of a single token). -/
def computeInitials (nameOrEmail : Option String) : Option String :=
  match nameOrEmail with
  | none => none
  | some v =>
      if v = "" then none
      else
        let s := jsTrimList v.data
        if s = [] then none
        else
          let lp := if s.any (fun ch => ch = '@') then s.takeWhile (fun ch => ch ≠ '@') else s
          let parts := (splitWsAux lp []).filter (fun p => p ≠ [])
          match parts with
          | [] => none
          | [p] => some (String.mk ((p.take 2).map Char.toUpper))
          | p :: q :: rest =>
              some (String.mk ((p.take 1 ++ ((q :: rest).getLastD []).take 1).map Char.toUpper))

/-- The recipient set of an `activity` event (insertion-ordered, deduped):
group owner plus accepted collaborators when the activity has a non
`@personal` group tag and the group is found, else just the acting user
for a personal activity; the actor is then deleted from the set. -/
def activityRecipients (act : ActivityRec) (g? : Option GroupRec) : List String :=
  let r :=
    if truthy act.groupTag ∧ act.groupTag ≠ some "@personal" then
      match g? with
      | some g =>
          let r1 := if truthy g.owner then setAdd [] (trimId g.owner) else []
          g.collaborators.foldl
            (fun acc cb =>
              if truthy cb.userId ∧ cb.status = "accepted" then setAdd acc (trimId cb.userId)
              else acc) r1
      | none => []
    else if truthy act.userId then setAdd [] (trimId act.userId) else []
  if truthy act.userId then r.filter (fun x => x ≠ trimId act.userId) else r

/-- The actor-identity fields of the published payload. -/
structure PayloadProj where
  userPicture : Option String
  userInitials : Option String
  userEmail : Option String
  userName : Option String
deriving DecidableEq, Repr

/-- The base payload projection built by the emitter before the
per-recipient loop: picture only when `customPicture` is set, initials and
email always, full name only when the actor customized their profile;
falls back to the activity's stored fields when the actor lookup returned
nothing. -/
def basePayloadProj (act : ActivityRec) (actor? : Option ActorRec) : PayloadProj :=
  match actor? with
  | some a =>
      { userPicture := jsNull a.customPicture
        userInitials := computeInitials (jsNull (jsOr a.name a.email))
        userEmail := jsNull a.email
        userName := if truthy a.customPicture then jsNull (jsOr a.name a.email) else none }
  | none =>
      { userPicture := none
        userInitials := computeInitials (jsNull act.userName)
        userEmail := jsNull act.userEmail
        userName := jsNull act.userName }

/-- The per-recipient payload: the actor's name is revealed (with email
fallback) exactly when the recipient is the group owner. -/
def perRecipientPayload (base : PayloadProj) (actor? : Option ActorRec)
    (g? : Option GroupRec) (rid : String) : PayloadProj :=
  match actor?, g? with
  | some a, some g =>
      if truthy g.owner ∧ rid = trimId g.owner then
        { base with userName := jsNull (jsOr a.name a.email) }
      else base
  | _, _ => base

/-- The actor-profile lookup of the emitter, wrapped in its own
`try`/`catch` that falls back to a null actor on failure. -/
def emitActorLookup (act : ActivityRec)
    (ul : String → Except Unit (Option ActorRec)) : Option ActorRec :=
  if truthy act.userId then
    match ul (act.userId.getD "") with
    | Except.ok a => a
    | Except.error _ => none
  else none

/-- The per-recipient publish loop of the emitter: one `activity` frame
per recipient, each with its own projected payload. -/
def emitSends (act : ActivityRec) (actor? : Option ActorRec) (g? : Option GroupRec) :
    List (String × PayloadProj) :=
  (activityRecipients act g?).map
    (fun rid => (rid, perRecipientPayload (basePayloadProj act actor?) actor? g? rid))

/-- The body of `emitActivity` up to the outer `catch`: the group lookup
may throw (propagating to the outer handler); the actor lookup is the
inner-handled `emitActorLookup`. -/
def emitActivityBody (act? : Option ActivityRec)
    (gl : String → Except Unit (Option GroupRec))
    (ul : String → Except Unit (Option ActorRec)) :
    Except Unit (Bool × List (String × PayloadProj)) :=
  match act? with
  | none => Except.ok (false, [])
  | some act =>
      (if truthy act.groupTag ∧ act.groupTag ≠ some "@personal" then gl (act.groupTag.getD "")
       else Except.ok none).bind
        (fun g? => Except.ok (true, emitSends act (emitActorLookup act ul) g?))

/-- `emitActivity(activity)`: the outer `try`/`catch` converts any escaped
failure into a `false` return with no publishes. -/
def emitActivity (act? : Option ActivityRec)
    (gl : String → Except Unit (Option GroupRec))
    (ul : String → Except Unit (Option ActorRec)) :
    Bool × List (String × PayloadProj) :=
  match emitActivityBody act? gl ul with
  | Except.ok r => r
  | Except.error _ => (false, [])

/-! ## Task-event emission sites (task controller) -/

/-- The recipients of the `notification` event emitted by `createTask` for
each assignee: `assignee ? assignee.toString().trim() : null` followed by
a falsy check; the acting user is never excluded. -/
def createTaskNotificationTargets (assignedTo : List (Option String)) : List String :=
  assignedTo.filterMap
    (fun a =>
      if truthy a then
        if trimId a = "" then none else some (trimId a)
      else none)

/-- The trimmed truthy assignee ids added to the `task_updated` /
`task_deleted` recipient set (`if (a) recipients.add(a.toString().trim())`). -/
def trimmedAssignees (assignedTo : List (Option String)) : List String :=
  assignedTo.filterMap (fun a => if truthy a then some (trimId a) else none)

/-- The recipient set of `task_updated` / `task_deleted` in `updateTask` /
`deleteTask`: the task owner, then every truthy assignee, minus the acting
user (`req.auth0Id`). -/
def taskEventRecipients (ownerId : Option String) (assignedTo : List (Option String))
    (auth0Id : Option String) : List String :=
  let r0 := if truthy ownerId then setAdd [] (trimId ownerId) else []
  let r1 := assignedTo.foldl
    (fun acc a => if truthy a then setAdd acc (trimId a) else acc) r0
  if truthy auth0Id then r1.filter (fun x => x ≠ trimId auth0Id) else r1

/-! ## Channel lifecycle handler (`GET /stream`) -/

/-- The heartbeat interval passed to `setInterval`, in milliseconds. -/
def heartbeatIntervalMs : Nat := 15000

/-- The state of one open `/stream` connection: the bound user, its
channel, the shared registry, and whether the heartbeat interval is still
armed. -/
structure StreamConn where
  userId : String
  channel : Channel
  registry : Registry
  heartbeatActive : Bool
deriving DecidableEq, Repr

/-- Connection establishment: write the `connected` event, register the
channel, arm the heartbeat interval. -/
def openStream (u : String) (c : Channel) (st : Registry) : StreamConn :=
  ⟨u, c, addClient u c st, true⟩

/-- One firing of the heartbeat interval:
`try { res.write(': ping') } catch (e) { /* ignore */ }` — the connection
state is untouched whether or not the write succeeds; the boolean reports
whether the ping reached the wire. -/
def heartbeatTick (writeOk : Bool) (s : StreamConn) : StreamConn × Bool :=
  if s.heartbeatActive then (s, writeOk) else (s, false)

/-- `n` consecutive heartbeat firings whose ping writes all fail. -/
def failedPings : Nat → StreamConn → StreamConn
  | 0, s => s
  | n + 1, s => failedPings n (heartbeatTick false s).1

/-- The `close` handler: clear the heartbeat interval and unregister the
channel. -/
def closeStream (s : StreamConn) : StreamConn :=
  { s with heartbeatActive := false,
           registry := removeClient s.userId s.channel s.registry }

/-! ## Register/unregister sequences (for the last-op-wins property) -/

/-- One registry operation on a fixed (user, channel) pair:
`true` is `addClient`, `false` is `removeClient`. -/
def applyOp (u : String) (c : Channel) (st : Registry) (b : Bool) : Registry :=
  if b then addClient u c st else removeClient u c st

/-- A sequence of register/unregister operations on the same pair. -/
def applyOps (u : String) (c : Channel) (ops : List Bool) (st : Registry) : Registry :=
  ops.foldl (applyOp u c) st

/-! ## Registry lemmas -/

theorem lookupR_updateR (st : Registry) (u : String) (l : List Channel) (v : String) :
    lookupR (updateR st u l) v =
      if v = u then (lookupR st u).map (fun _ => l) else lookupR st v := by
  induction st with
  | nil => simp [lookupR, updateR]
  | cons hd rest ih =>
      obtain ⟨k, w⟩ := hd
      by_cases hk : k = u
      · subst hk
        by_cases hv : v = k
        · subst hv; simp [lookupR, updateR]
        · have hkv : k ≠ v := fun h => hv h.symm
          simp [lookupR, updateR, hv, hkv]
      · by_cases hv : v = k
        · subst hv
          have hvu : ¬v = u := hk
          simp [lookupR, updateR, hvu]
        · have hkv : k ≠ v := fun h => hv h.symm
          simp [lookupR, updateR, hk, hkv, ih]

theorem lookupR_eraseR_ne (st : Registry) (u v : String) (hv : v ≠ u) :
    lookupR (eraseR st u) v = lookupR st v := by
  induction st with
  | nil => rfl
  | cons hd rest ih =>
      obtain ⟨k, w⟩ := hd
      by_cases hk : k = u
      · subst hk
        have hkv : k ≠ v := fun h => hv h.symm
        simp [lookupR, eraseR, hkv]
      · by_cases hv2 : k = v
        · subst hv2; simp [lookupR, eraseR, hk]
        · simp [lookupR, eraseR, hk, hv2, ih]

theorem lookupR_eq_none_iff (st : Registry) (u : String) :
    lookupR st u = none ↔ u ∉ st.map Prod.fst := by
  induction st with
  | nil => simp [lookupR]
  | cons hd rest ih =>
      obtain ⟨k, w⟩ := hd
      by_cases hk : k = u
      · subst hk; simp [lookupR]
      · have hku : u ≠ k := fun h => hk h.symm
        simp [lookupR, hk, hku, ih]

theorem lookupR_eraseR_self (st : Registry) (u : String)
    (hnd : (st.map Prod.fst).Nodup) : lookupR (eraseR st u) u = none := by
  induction st with
  | nil => rfl
  | cons hd rest ih =>
      obtain ⟨k, w⟩ := hd
      simp only [List.map_cons, List.nodup_cons] at hnd
      by_cases hku : k = u
      · subst hku
        rw [show eraseR ((k, w) :: rest) k = rest from by simp [eraseR]]
        exact (lookupR_eq_none_iff rest k).2 hnd.1
      · rw [show eraseR ((k, w) :: rest) u = (k, w) :: eraseR rest u from by simp [eraseR, hku]]
        simp [lookupR, hku, ih hnd.2]

theorem lookupR_append_of_none (st : Registry) (u v : String) (l : List Channel)
    (h : lookupR st v = none) :
    lookupR (st ++ [(u, l)]) v = if v = u then some l else none := by
  induction st with
  | nil =>
      by_cases hv : u = v
      · subst hv; simp [lookupR]
      · have : v ≠ u := fun hh => hv hh.symm
        simp [lookupR, hv, this]
  | cons hd rest ih =>
      obtain ⟨k, w⟩ := hd
      by_cases hk : k = v
      · subst hk; simp [lookupR] at h
      · simp only [lookupR, if_neg hk] at h
        simp [lookupR, hk, ih h]

theorem lookupR_append_of_some (st : Registry) (u v : String) (l x : List Channel)
    (h : lookupR st v = some x) : lookupR (st ++ [(u, l)]) v = some x := by
  induction st with
  | nil => simp [lookupR] at h
  | cons hd rest ih =>
      obtain ⟨k, w⟩ := hd
      by_cases hk : k = v
      · subst hk
        simp only [lookupR, if_pos rfl] at h ⊢
        exact h
      · simp only [lookupR, if_neg hk] at h ⊢
        exact ih h

theorem eraseR_append_of_none (st : Registry) (u : String) (l : List Channel)
    (h : lookupR st u = none) : eraseR (st ++ [(u, l)]) u = st := by
  induction st with
  | nil => simp [eraseR]
  | cons hd rest ih =>
      obtain ⟨k, w⟩ := hd
      by_cases hk : k = u
      · subst hk; simp [lookupR] at h
      · simp only [lookupR, if_neg hk] at h
        simp [eraseR, hk, ih h]

theorem updateR_self (st : Registry) (u : String) (l : List Channel)
    (h : lookupR st u = some l) : updateR st u l = st := by
  induction st with
  | nil => simp [updateR]
  | cons hd rest ih =>
      obtain ⟨k, w⟩ := hd
      by_cases hk : k = u
      · subst hk
        simp [lookupR] at h
        subst h
        simp [updateR]
      · simp only [lookupR, if_neg hk] at h
        simp [updateR, hk, ih h]

theorem mem_updateR (st : Registry) (u : String) (l : List Channel)
    (p : String × List Channel) (h : p ∈ updateR st u l) : p ∈ st ∨ p = (u, l) := by
  induction st with
  | nil => simp [updateR] at h
  | cons hd rest ih =>
      obtain ⟨k, w⟩ := hd
      by_cases hk : k = u
      · subst hk
        rw [show updateR ((k, w) :: rest) k l = (k, l) :: rest from by simp [updateR]] at h
        rcases List.mem_cons.1 h with h1 | h1
        · right; exact h1
        · left; exact List.mem_cons_of_mem _ h1
      · rw [show updateR ((k, w) :: rest) u l = (k, w) :: updateR rest u l from by
            simp [updateR, hk]] at h
        rcases List.mem_cons.1 h with h1 | h1
        · left; rw [h1]; exact List.mem_cons_self _ _
        · rcases ih h1 with h2 | h2
          · left; exact List.mem_cons_of_mem _ h2
          · right; exact h2

theorem mem_eraseR (st : Registry) (u : String) (p : String × List Channel)
    (h : p ∈ eraseR st u) : p ∈ st := by
  induction st with
  | nil => simp [eraseR] at h
  | cons hd rest ih =>
      obtain ⟨k, w⟩ := hd
      by_cases hk : k = u
      · rw [show eraseR ((k, w) :: rest) u = rest from by simp [eraseR, hk]] at h
        exact List.mem_cons_of_mem _ h
      · rw [show eraseR ((k, w) :: rest) u = (k, w) :: eraseR rest u from by
            simp [eraseR, hk]] at h
        rcases List.mem_cons.1 h with h1 | h1
        · rw [h1]; exact List.mem_cons_self _ _
        · exact List.mem_cons_of_mem _ (ih h1)

theorem keys_eraseR_nodup (st : Registry) (u : String)
    (h : (st.map Prod.fst).Nodup) : ((eraseR st u).map Prod.fst).Nodup := by
  induction st with
  | nil => simp [eraseR]
  | cons hd rest ih =>
      obtain ⟨k, w⟩ := hd
      simp only [List.map_cons, List.nodup_cons] at h
      by_cases hk : k = u
      · rw [show eraseR ((k, w) :: rest) u = rest from by simp [eraseR, hk]]
        exact h.2
      · rw [show eraseR ((k, w) :: rest) u = (k, w) :: eraseR rest u from by
            simp [eraseR, hk]]
        simp only [List.map_cons, List.nodup_cons]
        refine ⟨fun hmem => ?_, ih h.2⟩
        obtain ⟨q, hq, hq2⟩ := List.mem_map.1 hmem
        exact h.1 (List.mem_map.2 ⟨q, mem_eraseR rest u q hq, hq2⟩)

theorem keys_updateR (st : Registry) (u : String) (l : List Channel) :
    (updateR st u l).map Prod.fst = st.map Prod.fst := by
  induction st with
  | nil => simp [updateR]
  | cons hd rest ih =>
      obtain ⟨k, w⟩ := hd
      by_cases hk : k = u <;> simp [updateR, hk, ih]

theorem lookupR_mem (st : Registry) (u : String) (l : List Channel)
    (h : lookupR st u = some l) : (u, l) ∈ st := by
  induction st with
  | nil => simp [lookupR] at h
  | cons hd rest ih =>
      obtain ⟨k, w⟩ := hd
      by_cases hk : k = u
      · subst hk
        simp [lookupR] at h
        subst h
        exact List.mem_cons_self _ _
      · simp only [lookupR, if_neg hk] at h
        exact List.mem_cons_of_mem _ (ih h)

theorem mem_setAdd {α : Type} [DecidableEq α] (l : List α) (x y : α) :
    y ∈ setAdd l x ↔ y ∈ l ∨ y = x := by
  unfold setAdd
  by_cases hx : x ∈ l
  · simp only [if_pos hx]
    constructor
    · exact fun h => Or.inl h
    · rintro (h | h)
      · exact h
      · rw [h]; exact hx
  · simp [if_neg hx]

theorem setAdd_ne_nil {α : Type} [DecidableEq α] (l : List α) (x : α) :
    setAdd l x ≠ [] := by
  unfold setAdd
  by_cases hx : x ∈ l
  · simp only [if_pos hx]
    intro h
    rw [h] at hx
    simp at hx
  · simp [if_neg hx]

theorem nodup_setAdd {α : Type} [DecidableEq α] (l : List α) (x : α)
    (h : l.Nodup) : (setAdd l x).Nodup := by
  unfold setAdd
  by_cases hx : x ∈ l
  · simpa [if_pos hx] using h
  · simp only [if_neg hx]
    refine List.Nodup.append h (List.nodup_singleton x) ?_
    intro a ha hax
    rw [List.mem_singleton] at hax
    subst hax
    exact hx ha

/-! ## Unfolding equations for the registry operations -/

theorem addClient_eq_of_none (st : Registry) (u : String) (c : Channel)
    (hu : u ≠ "") (hl : lookupR st u = none) :
    addClient u c st = st ++ [(u, setAdd [] c)] := by
  unfold addClient
  rw [if_neg hu, hl]

theorem addClient_eq_of_some (st : Registry) (u : String) (c : Channel) (l : List Channel)
    (hu : u ≠ "") (hl : lookupR st u = some l) :
    addClient u c st = updateR st u (setAdd l c) := by
  unfold addClient
  rw [if_neg hu, hl]

theorem removeClient_of_lookup_none (st : Registry) (u : String) (c : Channel)
    (h : lookupR st u = none) : removeClient u c st = st := by
  unfold removeClient
  by_cases hu : u = ""
  · rw [if_pos hu]
  · rw [if_neg hu, h]

theorem removeClient_eq_of_some (st : Registry) (u : String) (c : Channel) (l : List Channel)
    (hu : u ≠ "") (hl : lookupR st u = some l) :
    removeClient u c st =
      if l.erase c = [] then eraseR st u else updateR st u (l.erase c) := by
  unfold removeClient
  rw [if_neg hu, hl]

theorem sendEventToUser_eq_of_none (st : Registry) (u : String) (wk : Channel → Bool)
    (hl : lookupR st u = none) : sendEventToUser u wk st = ⟨false, st, []⟩ := by
  unfold sendEventToUser
  by_cases hu : u = ""
  · rw [if_pos hu]
  · rw [if_neg hu, hl]

theorem sendEventToUser_eq_of_some (st : Registry) (u : String) (wk : Channel → Bool)
    (l : List Channel) (hu : u ≠ "") (hl : lookupR st u = some l) (hnil : l ≠ []) :
    sendEventToUser u wk st =
      ⟨l.any wk,
       if l.filter wk = [] then eraseR st u else updateR st u (l.filter wk),
       l.filter wk⟩ := by
  unfold sendEventToUser
  rw [if_neg hu, hl]
  simp only [if_neg hnil]

/-! ## Lookup behaviour of the registry operations -/

theorem lookupR_addClient_self (st : Registry) (u : String) (c : Channel) (hu : u ≠ "") :
    lookupR (addClient u c st) u = some (setAdd ((lookupR st u).getD []) c) := by
  cases hl : lookupR st u with
  | none =>
      rw [addClient_eq_of_none st u c hu hl,
        lookupR_append_of_none st u u (setAdd [] c) hl, if_pos rfl]
      rfl
  | some l =>
      rw [addClient_eq_of_some st u c l hu hl, lookupR_updateR, if_pos rfl, hl]
      rfl

theorem lookupR_addClient_ne (st : Registry) (u v : String) (c : Channel) (hv : v ≠ u) :
    lookupR (addClient u c st) v = lookupR st v := by
  by_cases hu : u = ""
  · unfold addClient
    rw [if_pos hu]
  · cases hl : lookupR st u with
    | none =>
        rw [addClient_eq_of_none st u c hu hl]
        cases hv2 : lookupR st v with
        | none => rw [lookupR_append_of_none st u v _ hv2, if_neg hv]
        | some x => rw [lookupR_append_of_some st u v _ x hv2]
    | some l =>
        rw [addClient_eq_of_some st u c l hu hl, lookupR_updateR, if_neg hv]

theorem lookupR_removeClient_ne (st : Registry) (u v : String) (c : Channel) (hv : v ≠ u) :
    lookupR (removeClient u c st) v = lookupR st v := by
  by_cases hu : u = ""
  · unfold removeClient
    rw [if_pos hu]
  · cases hl : lookupR st u with
    | none => rw [removeClient_of_lookup_none st u c hl]
    | some l =>
        rw [removeClient_eq_of_some st u c l hu hl]
        by_cases he : l.erase c = []
        · rw [if_pos he]
          exact lookupR_eraseR_ne st u v hv
        · rw [if_neg he, lookupR_updateR, if_neg hv]

theorem lookupR_removeClient_some (st : Registry) (u : String) (c : Channel)
    (l : List Channel) (hnd : (st.map Prod.fst).Nodup) (hu : u ≠ "")
    (hl : lookupR st u = some l) :
    lookupR (removeClient u c st) u =
      if l.erase c = [] then none else some (l.erase c) := by
  rw [removeClient_eq_of_some st u c l hu hl]
  by_cases he : l.erase c = []
  · rw [if_pos he, if_pos he]
    exact lookupR_eraseR_self st u hnd
  · rw [if_neg he, if_neg he, lookupR_updateR, if_pos rfl, hl]
    rfl

theorem lookupR_sendEventToUser_ne (st : Registry) (u v : String) (wk : Channel → Bool)
    (hv : v ≠ u) : lookupR (sendEventToUser u wk st).state v = lookupR st v := by
  by_cases hu : u = ""
  · unfold sendEventToUser
    rw [if_pos hu]
  · cases hl : lookupR st u with
    | none => rw [sendEventToUser_eq_of_none st u wk hl]
    | some l =>
        by_cases hnil : l = []
        · unfold sendEventToUser
          rw [if_neg hu, hl]
          simp only [if_pos hnil]
        · rw [sendEventToUser_eq_of_some st u wk l hu hl hnil]
          simp only
          by_cases hk : l.filter wk = []
          · rw [if_pos hk]
            exact lookupR_eraseR_ne st u v hv
          · rw [if_neg hk, lookupR_updateR, if_neg hv]

/-! ## Preservation of the map well-formedness by every operation -/

theorem WF_addClient (st : Registry) (u : String) (c : Channel) (hwf : WF st) :
    WF (addClient u c st) := by
  obtain ⟨hkeys, hvals⟩ := hwf
  by_cases hu : u = ""
  · unfold addClient
    rw [if_pos hu]
    exact ⟨hkeys, hvals⟩
  · cases hl : lookupR st u with
    | none =>
        rw [addClient_eq_of_none st u c hu hl]
        constructor
        · rw [List.map_append]
          refine List.Nodup.append hkeys (by simp) ?_
          intro a ha hax
          simp only [List.map_cons, List.map_nil, List.mem_singleton] at hax
          subst hax
          exact (lookupR_eq_none_iff st a).1 hl ha
        · intro p hp
          rcases List.mem_append.1 hp with hp | hp
          · exact hvals p hp
          · simp only [List.mem_singleton] at hp
            subst hp
            refine ⟨hu, ?_, ?_⟩
            · exact setAdd_ne_nil ([] : List Channel) c
            · exact nodup_setAdd ([] : List Channel) c List.nodup_nil
    | some l =>
        have hprops := hvals _ (lookupR_mem st u l hl)
        rw [addClient_eq_of_some st u c l hu hl]
        constructor
        · rw [keys_updateR]; exact hkeys
        · intro p hp
          rcases mem_updateR st u _ p hp with hp2 | hp2
          · exact hvals p hp2
          · subst hp2
            refine ⟨hu, ?_, ?_⟩
            · exact setAdd_ne_nil _ _
            · exact nodup_setAdd _ _ hprops.2.2

theorem WF_removeClient (st : Registry) (u : String) (c : Channel) (hwf : WF st) :
    WF (removeClient u c st) := by
  obtain ⟨hkeys, hvals⟩ := hwf
  by_cases hu : u = ""
  · unfold removeClient
    rw [if_pos hu]
    exact ⟨hkeys, hvals⟩
  · cases hl : lookupR st u with
    | none =>
        rw [removeClient_of_lookup_none st u c hl]
        exact ⟨hkeys, hvals⟩
    | some l =>
        have hprops := hvals _ (lookupR_mem st u l hl)
        rw [removeClient_eq_of_some st u c l hu hl]
        by_cases he : l.erase c = []
        · rw [if_pos he]
          refine ⟨keys_eraseR_nodup st u hkeys, ?_⟩
          intro p hp
          exact hvals p (mem_eraseR st u p hp)
        · rw [if_neg he]
          constructor
          · rw [keys_updateR]; exact hkeys
          · intro p hp
            rcases mem_updateR st u _ p hp with hp2 | hp2
            · exact hvals p hp2
            · subst hp2
              exact ⟨hu, he, List.Nodup.erase c hprops.2.2⟩

theorem WF_sendEventToUser (st : Registry) (u : String) (wk : Channel → Bool) (hwf : WF st) :
    WF (sendEventToUser u wk st).state := by
  obtain ⟨hkeys, hvals⟩ := hwf
  by_cases hu : u = ""
  · unfold sendEventToUser
    rw [if_pos hu]
    exact ⟨hkeys, hvals⟩
  · cases hl : lookupR st u with
    | none =>
        rw [sendEventToUser_eq_of_none st u wk hl]
        exact ⟨hkeys, hvals⟩
    | some l =>
        have hprops := hvals _ (lookupR_mem st u l hl)
        by_cases hnil : l = []
        · unfold sendEventToUser
          rw [if_neg hu, hl]
          simp only [if_pos hnil]
          exact ⟨hkeys, hvals⟩
        · rw [sendEventToUser_eq_of_some st u wk l hu hl hnil]
          simp only
          by_cases hk : l.filter wk = []
          · rw [if_pos hk]
            refine ⟨keys_eraseR_nodup st u hkeys, ?_⟩
            intro p hp
            exact hvals p (mem_eraseR st u p hp)
          · rw [if_neg hk]
            constructor
            · rw [keys_updateR]; exact hkeys
            · intro p hp
              rcases mem_updateR st u _ p hp with hp2 | hp2
              · exact hvals p hp2
              · subst hp2
                exact ⟨hu, hk, List.Nodup.filter _ hprops.2.2⟩

/-! ## Channel membership after the operations -/

theorem hasChannel_addClient_self (st : Registry) (u : String) (c : Channel) (hu : u ≠ "") :
    hasChannel (addClient u c st) u c = true := by
  unfold hasChannel
  rw [lookupR_addClient_self st u c hu]
  simp [mem_setAdd]

theorem hasChannel_removeClient_self (st : Registry) (u : String) (c : Channel)
    (hwf : WF st) (hu : u ≠ "") : hasChannel (removeClient u c st) u c = false := by
  unfold hasChannel
  cases hl : lookupR st u with
  | none =>
      rw [removeClient_of_lookup_none st u c hl, hl]
  | some l =>
      have hnd := (hwf.2 _ (lookupR_mem st u l hl)).2.2
      rw [lookupR_removeClient_some st u c l hwf.1 hu hl]
      by_cases he : l.erase c = []
      · rw [if_pos he]
      · rw [if_neg he]
        simp only [decide_eq_false_iff_not]
        intro hmem
        exact ((List.Nodup.mem_erase_iff hnd).1 hmem).1 rfl

theorem removeClient_of_not_hasChannel (st : Registry) (u : String) (c : Channel)
    (hwf : WF st) (h : hasChannel st u c = false) : removeClient u c st = st := by
  unfold hasChannel at h
  cases hl : lookupR st u with
  | none => exact removeClient_of_lookup_none st u c hl
  | some l =>
      rw [hl] at h
      simp only [decide_eq_false_iff_not] at h
      have hne : l ≠ [] := (hwf.2 _ (lookupR_mem st u l hl)).2.1
      have herase : l.erase c = l := List.erase_of_not_mem h
      by_cases hu : u = ""
      · unfold removeClient
        rw [if_pos hu]
      · rw [removeClient_eq_of_some st u c l hu hl, herase, if_neg hne]
        exact updateR_self st u l hl

theorem WF_applyOp (u : String) (c : Channel) (st : Registry) (b : Bool) (hwf : WF st) :
    WF (applyOp u c st b) := by
  cases b
  · exact WF_removeClient st u c hwf
  · exact WF_addClient st u c hwf

theorem applyOps_last (u : String) (c : Channel) (ops : List Bool) :
    ∀ b : Bool, ops.getLast? = some b → ∀ st : Registry, WF st → u ≠ "" →
      hasChannel (applyOps u c ops st) u c = b := by
  induction ops with
  | nil => intro b hb; simp at hb
  | cons o rest ih =>
      intro b hb st hwf hu
      cases rest with
      | nil =>
          have hob : o = b := by simpa using hb
          subst hob
          cases o
          · exact hasChannel_removeClient_self st u c hwf hu
          · exact hasChannel_addClient_self st u c hu
      | cons o2 r2 =>
          have hb2 : (o2 :: r2).getLast? = some b := by
            rw [← hb]
            rfl
          exact ih b hb2 (applyOp u c st o) (WF_applyOp u c st o hwf) hu

theorem filter_true_eq {α : Type} (l : List α) : l.filter (fun _ => true) = l := by
  induction l with
  | nil => rfl
  | cons x xs ih => simp [List.filter, ih]

theorem broadcastChannels_fst (wk : Channel → Bool) (l : List Channel) :
    (broadcastChannels wk l).1 = l := by
  induction l with
  | nil => rfl
  | cons c cs ih =>
      simp only [broadcastChannels]
      by_cases hc : wk c
      · rw [if_pos hc]
        simpa using ih
      · rw [if_neg hc]
        simpa using ih

/-! ## Claim theorems for the connection registry and publisher -/

/-- C6: for every user identity with zero registered channels (absent from
the registry, or mapped to an empty set), `sendEventToUser` returns `false`
immediately, delivers nothing, and leaves the registry unchanged. -/
theorem publish_offline_is_noop (st : Registry) (u : String) (wk : Channel → Bool)
    (h : lookupR st u = none ∨ lookupR st u = some []) :
    sendEventToUser u wk st = ⟨false, st, []⟩ := by
  rcases h with h | h
  · exact sendEventToUser_eq_of_none st u wk h
  · by_cases hu : u = ""
    · unfold sendEventToUser
      rw [if_pos hu]
    · unfold sendEventToUser
      rw [if_neg hu, h]
      rfl

/-- Witness for C6: publishing to the unregistered user `ghost` returns
`false` and does not touch the registry. -/
theorem publish_offline_is_noop_witness :
    sendEventToUser "ghost" (fun _ => true) [("alice", [0])] =
      ⟨false, [("alice", [0])], []⟩ :=
  publish_offline_is_noop [("alice", [0])] "ghost" (fun _ => true) (Or.inl (by decide))

/-- C4: from a well-formed registry, each of `addClient`, `removeClient`
and `sendEventToUser` (including its self-healing removal of broken
channels) leaves every present user key mapped to a non-empty channel set,
and registering a channel for an unknown user and then unregistering it
before any publish restores the registry exactly (no dangling entry). -/
theorem registry_no_empty_entries (st : Registry) (u : String) (c : Channel)
    (wk : Channel → Bool) (hwf : WF st) :
    (∀ p ∈ addClient u c st, p.2 ≠ []) ∧
    (∀ p ∈ removeClient u c st, p.2 ≠ []) ∧
    (∀ p ∈ (sendEventToUser u wk st).state, p.2 ≠ []) ∧
    (lookupR st u = none → removeClient u c (addClient u c st) = st) := by
  refine ⟨?_, ?_, ?_, ?_⟩
  · intro p hp
    exact ((WF_addClient st u c hwf).2 p hp).2.1
  · intro p hp
    exact ((WF_removeClient st u c hwf).2 p hp).2.1
  · intro p hp
    exact ((WF_sendEventToUser st u wk hwf).2 p hp).2.1
  · intro hl
    by_cases hu : u = ""
    · have h1 : addClient u c st = st := by
        unfold addClient
        rw [if_pos hu]
      have h2 : removeClient u c st = st := by
        unfold removeClient
        rw [if_pos hu]
      rw [h1, h2]
    · rw [addClient_eq_of_none st u c hu hl]
      have hlook : lookupR (st ++ [(u, setAdd [] c)]) u = some (setAdd [] c) := by
        rw [lookupR_append_of_none st u u _ hl, if_pos rfl]
      rw [removeClient_eq_of_some _ u c _ hu hlook]
      have herase : (setAdd ([] : List Channel) c).erase c = [] := by
        simp [setAdd]
      rw [herase, if_pos rfl]
      exact eraseR_append_of_none st u _ hl

/-- Witness for C4: opening one channel for a fresh user and closing it
again leaves an empty registry. -/
theorem registry_no_empty_entries_witness :
    removeClient "alice" 0 (addClient "alice" 0 []) = [] :=
  (registry_no_empty_entries [] "alice" 0 (fun _ => true) (by decide)).2.2.2 (by decide)

/-- C3: when a user has registered channels and at least one write
succeeds, `sendEventToUser` returns `true`, the frame reaches exactly the
channels whose writes succeed (a failure on one channel aborts neither the
rest of that user's channels nor other users' entries), the failing
channels are removed from the registry, and a subsequent publish reaches
exactly the surviving channels. -/
theorem publish_partial_failure_isolation (st : Registry) (u : String)
    (wk : Channel → Bool) (l : List Channel) (hwf : WF st)
    (hl : lookupR st u = some l) (hok : l.any wk = true) :
    (sendEventToUser u wk st).delivered = true ∧
    (sendEventToUser u wk st).written = l.filter wk ∧
    lookupR (sendEventToUser u wk st).state u = some (l.filter wk) ∧
    (∀ v, v ≠ u → lookupR (sendEventToUser u wk st).state v = lookupR st v) ∧
    (sendEventToUser u (fun _ => true) (sendEventToUser u wk st).state).written =
      l.filter wk := by
  have hu : u ≠ "" := (hwf.2 _ (lookupR_mem st u l hl)).1
  have hnil : l ≠ [] := (hwf.2 _ (lookupR_mem st u l hl)).2.1
  have hkne : l.filter wk ≠ [] := by
    obtain ⟨x, hx, hwx⟩ := List.any_eq_true.1 hok
    intro hcontra
    have hmem : x ∈ l.filter wk := List.mem_filter.2 ⟨hx, hwx⟩
    rw [hcontra] at hmem
    simp at hmem
  rw [sendEventToUser_eq_of_some st u wk l hu hl hnil]
  refine ⟨hok, rfl, ?_, ?_, ?_⟩
  · show lookupR (if l.filter wk = [] then eraseR st u else updateR st u (l.filter wk)) u =
      some (l.filter wk)
    rw [if_neg hkne, lookupR_updateR, if_pos rfl, hl]
    rfl
  · intro v hv
    show lookupR (if l.filter wk = [] then eraseR st u else updateR st u (l.filter wk)) v =
      lookupR st v
    rw [if_neg hkne, lookupR_updateR, if_neg hv]
  · show (sendEventToUser u (fun _ => true)
      (if l.filter wk = [] then eraseR st u else updateR st u (l.filter wk))).written =
      l.filter wk
    rw [if_neg hkne]
    have hlook2 : lookupR (updateR st u (l.filter wk)) u = some (l.filter wk) := by
      rw [lookupR_updateR, if_pos rfl, hl]
      rfl
    rw [sendEventToUser_eq_of_some _ u _ _ hu hlook2 hkne]
    exact filter_true_eq _

/-- Witness for C3 (Scenario A): `alice` has channels 0 and 1, the write
to 0 fails and the write to 1 succeeds; publish still reports delivery. -/
theorem publish_partial_failure_isolation_witness :
    (sendEventToUser "alice" (fun c => c == 1) [("alice", [0, 1])]).delivered = true :=
  (publish_partial_failure_isolation [("alice", [0, 1])] "alice" (fun c => c == 1)
    [0, 1] (by decide) (by decide) (by decide)).1

/-- C7: over any sequence of register/unregister operations on the same
(user, channel) pair starting from a well-formed registry, the final
registry contains the channel exactly when the last operation was a
register; and unregistering a channel that is not present is a no-op. -/
theorem registry_last_op_wins (st : Registry) (u : String) (c : Channel)
    (hwf : WF st) (hu : u ≠ "") :
    (∀ (ops : List Bool) (b : Bool), ops.getLast? = some b →
        hasChannel (applyOps u c ops st) u c = b) ∧
    (hasChannel st u c = false → removeClient u c st = st) := by
  constructor
  · intro ops b hb
    exact applyOps_last u c ops b hb st hwf hu
  · intro h
    exact removeClient_of_not_hasChannel st u c hwf h

/-- Witness for C7: register, unregister, register again ends with the
channel present. -/
theorem registry_last_op_wins_witness :
    hasChannel (applyOps "alice" 0 [true, false, true] []) "alice" 0 = true :=
  (registry_last_op_wins [] "alice" 0 (by decide) (by decide)).1
    [true, false, true] true (by decide)

/-- C10: `broadcast` never mutates the connection registry — channels
whose writes fail are skipped but stay registered, so the registry
component of the result is exactly the input registry. -/
theorem broadcast_preserves_registry (wk : Channel → Bool) (st : Registry) :
    (broadcast wk st).1 = st := by
  induction st with
  | nil => rfl
  | cons hd rest ih =>
      obtain ⟨u, l⟩ := hd
      simp only [broadcast]
      rw [broadcastChannels_fst wk l, ih]

/-! ## Recipient-set lemmas for the task-event emission sites -/

theorem mem_assignFold (assigned : List (Option String)) :
    ∀ (r0 : List String) (x : String),
      (x ∈ assigned.foldl
          (fun acc a => if truthy a then setAdd acc (trimId a) else acc) r0) ↔
        x ∈ r0 ∨ x ∈ trimmedAssignees assigned := by
  induction assigned with
  | nil =>
      intro r0 x
      simp [trimmedAssignees]
  | cons a rest ih =>
      intro r0 x
      by_cases ha : truthy a = true
      · simp only [List.foldl_cons, if_pos ha]
        rw [ih (setAdd r0 (trimId a)) x]
        rw [mem_setAdd]
        simp only [trimmedAssignees, List.filterMap_cons, if_pos ha]
        simp only [List.mem_cons]
        tauto
      · simp only [List.foldl_cons, if_neg ha]
        rw [ih r0 x]
        simp only [trimmedAssignees, List.filterMap_cons, if_neg ha]

/-- C8: the `task_updated` / `task_deleted` recipient set is exactly the
task owner plus the (trimmed, truthy) assignees, minus the acting user;
and when the actor is the owner, exactly the assignees other than the
owner receive the event (the owner never does). -/
theorem task_event_recipient_set (ow : Option String) (assigned : List (Option String))
    (auth : Option String) (ho : truthy ow = true) (ha : truthy auth = true) :
    (∀ x, x ∈ taskEventRecipients ow assigned auth ↔
        ((x = trimId ow ∨ x ∈ trimmedAssignees assigned) ∧ x ≠ trimId auth)) ∧
    (auth = ow → ∀ x, x ∈ taskEventRecipients ow assigned auth ↔
        (x ∈ trimmedAssignees assigned ∧ x ≠ trimId ow)) := by
  have hmain : ∀ x, x ∈ taskEventRecipients ow assigned auth ↔
      ((x = trimId ow ∨ x ∈ trimmedAssignees assigned) ∧ x ≠ trimId auth) := by
    intro x
    unfold taskEventRecipients
    simp only [ho, ha, if_true]
    rw [List.mem_filter]
    rw [mem_assignFold assigned (setAdd [] (trimId ow)) x]
    have h0 : (x ∈ setAdd ([] : List String) (trimId ow)) ↔ x = trimId ow := by
      rw [mem_setAdd]
      simp
    rw [h0]
    simp
  refine ⟨hmain, fun heq x => ?_⟩
  rw [hmain x, heq]
  constructor
  · rintro ⟨h1 | h1, h2⟩
    · exact absurd h1 h2
    · exact ⟨h1, h2⟩
  · rintro ⟨h1, h2⟩
    exact ⟨Or.inr h1, h2⟩

/-- Witness for C8 (Scenario B): owner `bob` updates a task assigned to
`carol` and `dave`; `carol` is a recipient and `bob` is not. -/
theorem task_event_recipient_set_witness :
    ("carol" ∈ taskEventRecipients (some "bob") [some "carol", some "dave"] (some "bob") ↔
      (("carol" = trimId (some "bob") ∨
        "carol" ∈ trimmedAssignees [some "carol", some "dave"]) ∧
        "carol" ≠ trimId (some "bob"))) ∧
    ("bob" ∈ taskEventRecipients (some "bob") [some "carol", some "dave"] (some "bob") ↔
      ("bob" ∈ trimmedAssignees [some "carol", some "dave"] ∧ "bob" ≠ trimId (some "bob"))) :=
  ⟨(task_event_recipient_set (some "bob") [some "carol", some "dave"] (some "bob")
      (by decide) (by decide)).1 "carol",
   (task_event_recipient_set (some "bob") [some "carol", some "dave"] (some "bob")
      (by decide) (by decide)).2 rfl "bob"⟩

/-- C1 counterexample: the `notification` emission loop in `createTask`
never removes the acting user, so when actor `alice` creates a task
assigned to themselves, the recipient list of the resulting
`notification` event is exactly `[alice]` — it contains the actor. -/
theorem notification_actor_not_excluded_cex :
    createTaskNotificationTargets [some "alice"] = ["alice"] := by decide

/-- C1 (amended): the acting user is excluded from the recipient sets of
`activity` events and of `task_updated` / `task_deleted` events (and the
deletion-path `notification_removed`, which uses the same set), for every
input with a truthy acting user id. -/
theorem actor_exclusion_amended (act : ActivityRec) (g? : Option GroupRec)
    (ow auth : Option String) (assigned : List (Option String))
    (hact : truthy act.userId = true) (hauth : truthy auth = true) :
    trimId act.userId ∉ activityRecipients act g? ∧
    trimId auth ∉ taskEventRecipients ow assigned auth := by
  constructor
  · intro hmem
    unfold activityRecipients at hmem
    rw [if_pos hact] at hmem
    have := (List.mem_filter.1 hmem).2
    simp at this
  · intro hmem
    unfold taskEventRecipients at hmem
    rw [if_pos hauth] at hmem
    have := (List.mem_filter.1 hmem).2
    simp at this

/-- Witness for C1 (amended): actor `alice` is not among the recipients of
their own group activity, nor of their own task update. -/
theorem actor_exclusion_amended_witness :
    trimId (some "alice") ∉
      activityRecipients ⟨some "alice", some "@team", none, none⟩
        (some ⟨some "erin", [⟨some "alice", "accepted"⟩, ⟨some "carol", "accepted"⟩]⟩) ∧
    trimId (some "alice") ∉
      taskEventRecipients (some "bob") [some "alice", some "carol"] (some "alice") :=
  actor_exclusion_amended ⟨some "alice", some "@team", none, none⟩
    (some ⟨some "erin", [⟨some "alice", "accepted"⟩, ⟨some "carol", "accepted"⟩]⟩)
    (some "bob") (some "alice") [some "alice", some "carol"] (by decide) (by decide)

/-- C2: for an `activity` event whose actor has no custom picture, a
recipient other than the group owner gets a payload with `userName` and
`userPicture` both null (only initials and email remain), while the group
owner gets the actor's real name — falling back to the actor's email when
the name is absent — and still no picture. -/
theorem activity_privacy_projection (act : ActivityRec) (g : GroupRec) (a : ActorRec)
    (r1 : String) (hpic : truthy a.customPicture = false) (hown : truthy g.owner = true)
    (hr1mem : r1 ∈ activityRecipients act (some g)) (hr1 : r1 ≠ trimId g.owner)
    (hr2mem : trimId g.owner ∈ activityRecipients act (some g)) :
    (perRecipientPayload (basePayloadProj act (some a)) (some a) (some g) r1).userName =
      none ∧
    (perRecipientPayload (basePayloadProj act (some a)) (some a) (some g) r1).userPicture =
      none ∧
    (perRecipientPayload (basePayloadProj act (some a)) (some a) (some g) r1).userEmail =
      jsNull a.email ∧
    (perRecipientPayload (basePayloadProj act (some a)) (some a) (some g) r1).userInitials =
      computeInitials (jsNull (jsOr a.name a.email)) ∧
    (perRecipientPayload (basePayloadProj act (some a)) (some a) (some g)
        (trimId g.owner)).userPicture = none ∧
    (truthy a.name = true →
      (perRecipientPayload (basePayloadProj act (some a)) (some a) (some g)
          (trimId g.owner)).userName = a.name) ∧
    (truthy a.name = false →
      (perRecipientPayload (basePayloadProj act (some a)) (some a) (some g)
          (trimId g.owner)).userName = jsNull a.email) := by
  have hpic2 : ¬truthy a.customPicture = true := by
    rw [hpic]
    exact Bool.false_ne_true
  have hstep1 : perRecipientPayload (basePayloadProj act (some a)) (some a) (some g) r1 =
      if truthy g.owner = true ∧ r1 = trimId g.owner then
        { basePayloadProj act (some a) with userName := jsNull (jsOr a.name a.email) }
      else basePayloadProj act (some a) := rfl
  have hstep2 : perRecipientPayload (basePayloadProj act (some a)) (some a) (some g)
      (trimId g.owner) =
      if truthy g.owner = true ∧ trimId g.owner = trimId g.owner then
        { basePayloadProj act (some a) with userName := jsNull (jsOr a.name a.email) }
      else basePayloadProj act (some a) := rfl
  have hbase1 : perRecipientPayload (basePayloadProj act (some a)) (some a) (some g) r1 =
      basePayloadProj act (some a) := by
    rw [hstep1, if_neg (fun hc => hr1 hc.2)]
  have hbase2 : perRecipientPayload (basePayloadProj act (some a)) (some a) (some g)
      (trimId g.owner) =
      { basePayloadProj act (some a) with userName := jsNull (jsOr a.name a.email) } := by
    rw [hstep2, if_pos ⟨hown, rfl⟩]
  have hbaseEq : basePayloadProj act (some a) =
      { userPicture := jsNull a.customPicture,
        userInitials := computeInitials (jsNull (jsOr a.name a.email)),
        userEmail := jsNull a.email,
        userName := if truthy a.customPicture = true then jsNull (jsOr a.name a.email)
          else none } := rfl
  refine ⟨?_, ?_, ?_, ?_, ?_, ?_, ?_⟩
  · rw [hbase1, hbaseEq]
    show (if truthy a.customPicture = true then jsNull (jsOr a.name a.email) else none) = none
    rw [if_neg hpic2]
  · rw [hbase1, hbaseEq]
    show jsNull a.customPicture = none
    unfold jsNull
    rw [if_neg hpic2]
  · rw [hbase1, hbaseEq]
  · rw [hbase1, hbaseEq]
  · rw [hbase2]
    show (basePayloadProj act (some a)).userPicture = none
    rw [hbaseEq]
    show jsNull a.customPicture = none
    unfold jsNull
    rw [if_neg hpic2]
  · intro hname
    rw [hbase2]
    show jsNull (jsOr a.name a.email) = a.name
    unfold jsNull jsOr
    rw [if_pos hname, if_pos hname]
  · intro hname
    have hname2 : ¬truthy a.name = true := by
      rw [hname]
      exact Bool.false_ne_true
    rw [hbase2]
    show jsNull (jsOr a.name a.email) = jsNull a.email
    unfold jsOr
    rw [if_neg hname2]

/-- Witness for C2: actor `alice` (name `Alice A`, no custom picture) in
group `@team` owned by `erin` with accepted collaborator `carol`: `carol`
is a non-owner recipient and `erin` is the owner recipient. -/
theorem activity_privacy_projection_witness :
    (perRecipientPayload
        (basePayloadProj ⟨some "alice", some "@team", none, none⟩
          (some ⟨some "Alice A", some "alice@x.com", none⟩))
        (some ⟨some "Alice A", some "alice@x.com", none⟩)
        (some ⟨some "erin", [⟨some "carol", "accepted"⟩]⟩) "carol").userName = none ∧
    (truthy (some "Alice A") = true →
      (perRecipientPayload
          (basePayloadProj ⟨some "alice", some "@team", none, none⟩
            (some ⟨some "Alice A", some "alice@x.com", none⟩))
          (some ⟨some "Alice A", some "alice@x.com", none⟩)
          (some ⟨some "erin", [⟨some "carol", "accepted"⟩]⟩)
          (trimId (some "erin"))).userName = some "Alice A") := by
  have h := activity_privacy_projection ⟨some "alice", some "@team", none, none⟩
    ⟨some "erin", [⟨some "carol", "accepted"⟩]⟩
    ⟨some "Alice A", some "alice@x.com", none⟩ "carol"
    (by decide) (by decide) (by decide) (by decide) (by decide)
  exact ⟨h.1, h.2.2.2.2.2.1⟩

/-- C9: `emitActivity` never throws to its caller — a null activity and a
failing group lookup are converted to a `false` return with no publishes,
a failing actor-profile lookup is absorbed by the inner handler (the
emission proceeds exactly as with a missing profile), and every call
returns a plain boolean outcome: either the abandoned `(false, [])` or a
successful `true`. -/
theorem emitActivity_error_containment :
    (∀ (gl : String → Except Unit (Option GroupRec))
        (ul : String → Except Unit (Option ActorRec)),
        emitActivity none gl ul = (false, [])) ∧
    (∀ (act : ActivityRec) (ul : String → Except Unit (Option ActorRec)),
        truthy act.groupTag = true → act.groupTag ≠ some "@personal" →
        emitActivity (some act) (fun _ => Except.error ()) ul = (false, [])) ∧
    (∀ (act : ActivityRec) (gl : String → Except Unit (Option GroupRec)),
        emitActivity (some act) gl (fun _ => Except.error ()) =
          emitActivity (some act) gl (fun _ => Except.ok none)) ∧
    (∀ (act? : Option ActivityRec) (gl : String → Except Unit (Option GroupRec))
        (ul : String → Except Unit (Option ActorRec)),
        emitActivity act? gl ul = (false, []) ∨ (emitActivity act? gl ul).1 = true) := by
  have hbody : ∀ (act : ActivityRec) (gl : String → Except Unit (Option GroupRec))
      (ul : String → Except Unit (Option ActorRec)),
      emitActivityBody (some act) gl ul =
        (if truthy act.groupTag = true ∧ act.groupTag ≠ some "@personal" then
            gl (act.groupTag.getD "") else Except.ok none).bind
          (fun g? => Except.ok (true, emitSends act (emitActorLookup act ul) g?)) :=
    fun _ _ _ => rfl
  refine ⟨?_, ?_, ?_, ?_⟩
  · intro gl ul
    rfl
  · intro act ul h1 h2
    unfold emitActivity
    rw [hbody, if_pos ⟨h1, h2⟩]
    rfl
  · intro act gl
    have hlookup : emitActorLookup act (fun _ => Except.error ()) =
        emitActorLookup act (fun _ => Except.ok none) := rfl
    unfold emitActivity
    rw [hbody, hbody, hlookup]
  · intro act? gl ul
    cases act? with
    | none => exact Or.inl rfl
    | some act =>
        unfold emitActivity
        rw [hbody]
        cases hg : (if truthy act.groupTag = true ∧ act.groupTag ≠ some "@personal" then
            gl (act.groupTag.getD "") else Except.ok none) with
        | error e => exact Or.inl rfl
        | ok g? => exact Or.inr rfl

/-- Witness for C9: a group activity whose group lookup throws yields the
caught `(false, [])` outcome rather than an exception. -/
theorem emitActivity_error_containment_witness :
    emitActivity (some ⟨some "alice", some "@team", none, none⟩)
        (fun _ => Except.error ()) (fun _ => Except.ok none) = (false, []) :=
  emitActivity_error_containment.2.1 ⟨some "alice", some "@team", none, none⟩
    (fun _ => Except.ok none) (by decide) (by decide)

/-- C5 counterexample: three consecutive heartbeat firings whose ping
writes all fail leave the channel registered and the heartbeat timer
armed — the code ignores ping-write failures and never unregisters the
channel from the heartbeat path. -/
theorem heartbeat_missed_writes_cex :
    hasChannel (failedPings 3 (openStream "alice" 0 [])).registry "alice" 0 = true ∧
    (failedPings 3 (openStream "alice" 0 [])).heartbeatActive = true := by
  decide

/-- C5 (amended): the heartbeat interval is the fixed 15000 ms constant;
any number of failed ping writes leaves the connection state (registry and
timer) completely unchanged; unregistration and timer cancellation happen
only in the close handler, which stops the timer and removes the channel. -/
theorem heartbeat_failures_ignored (s : StreamConn) (n : Nat)
    (hwf : WF s.registry) (hu : s.userId ≠ "") :
    failedPings n s = s ∧
    (closeStream s).heartbeatActive = false ∧
    hasChannel (closeStream s).registry s.userId s.channel = false ∧
    heartbeatIntervalMs = 15000 := by
  refine ⟨?_, rfl, ?_, rfl⟩
  · induction n with
    | zero => rfl
    | succ m ih =>
        show failedPings m (heartbeatTick false s).1 = s
        have ht : (heartbeatTick false s).1 = s := by
          unfold heartbeatTick
          split <;> rfl
        rw [ht]
        exact ih
  · exact hasChannel_removeClient_self s.registry s.userId s.channel hwf hu

/-- Witness for C5 (amended): the idle `alice` connection survives three
failed pings unchanged, and closing it clears the registry entry. -/
theorem heartbeat_failures_ignored_witness :
    failedPings 3 (openStream "alice" 0 []) = openStream "alice" 0 [] :=
  (heartbeat_failures_ignored (openStream "alice" 0 []) 3 (by decide) (by decide)).1

end Efficio
